import Mathlib

/-!
Shallow embedding of `src/main.py` (RSS → LLM daily report pipeline).

Modelling conventions:
* The process environment is a function `String → Option String`
  (`os.getenv k = env k`; `os.environ.setdefault` is `setdefault`).
* Files are passed in as `Option String` (`none` = file absent,
  `some c` = file exists with content `c`); `str.splitlines()` is
  `splitLines` (split at newline characters).
* Python string primitives are embedded as executable functions on the
  character list of a `String`: `pyStrip` is `str.strip()`, `stripChar`
  is `str.strip(c)` for one character, `pyLower` is ASCII `str.lower()`,
  `pyTake n` is the slice `[:n]`, `splitFirst` is `str.split(sep, 1)`
  together with the `sep in str` test.
* `dt.datetime.utcnow().strftime("%Y-%m-%d")` is replaced by an explicit
  `today` parameter: every function that uses the current date takes it
  as input.
* Python exceptions become `Except` error values. The spec's `ConfigError`
  taxonomy covers the `FileNotFoundError` / `ValueError` raised when
  loading feeds and the `RuntimeError` raised for a missing credential.
* The network call `client.chat.completions.create(**request_kwargs)` is
  the boundary of the model: `generate_report_md` returns either the
  fallback text (`GenResult.fallback`, no request issued) or the fully
  built request (`GenResult.request`). An `Except.error` result means the
  function raised before reaching the network call.
-/

/-- Whitespace characters stripped by Python `str.strip()` (ASCII range). -/
def isPySpace (c : Char) : Bool :=
  c == ' ' || c == '\t' || c == '\n' || c == '\r' || c == '\x0b' || c == '\x0c'

/-- Python `s.strip()`: remove leading and trailing whitespace. -/
def pyStrip (s : String) : String :=
  ⟨((s.data.dropWhile isPySpace).reverse.dropWhile isPySpace).reverse⟩

/-- Python `s.strip(c)` for a single character `c`: remove every leading
and trailing occurrence of `c`. -/
def stripChar (c : Char) (s : String) : String :=
  ⟨((s.data.dropWhile (· == c)).reverse.dropWhile (· == c)).reverse⟩

/-- ASCII `s.lower()`. -/
def pyLower (s : String) : String := ⟨s.data.map Char.toLower⟩

/-- Python slice `s[:n]`. -/
def pyTake (n : Nat) (s : String) : String := ⟨s.data.take n⟩

/-- Python `s.startswith(chr 35)` specialised to the one-character prefix
used by the config loaders. -/
def startsWithHash (s : String) : Bool :=
  match s.data with
  | [] => false
  | c :: _ => c == '#'

def splitLinesGo (acc : List Char) : List Char → List String
  | [] => [⟨acc.reverse⟩]
  | c :: cs =>
    if c = '\n' then ⟨acc.reverse⟩ :: splitLinesGo [] cs
    else splitLinesGo (c :: acc) cs

/-- Iteration over the lines of a file (`str.splitlines()`, modelled as
splitting at newline characters). -/
def splitLines (s : String) : List String := splitLinesGo [] s.data

def splitFirstGo (sep : Char) (acc : List Char) : List Char → Option (String × String)
  | [] => none
  | x :: xs =>
    if x = sep then some (⟨acc.reverse⟩, ⟨xs⟩)
    else splitFirstGo sep (x :: acc) xs

/-- Python `s.split(sep, 1)` for a one-character separator, returning
`none` when `sep` does not occur in `s` (the `sep not in s` test). -/
def splitFirst (sep : Char) (s : String) : Option (String × String) :=
  splitFirstGo sep [] s.data

/-- Process environment: `os.environ` / `os.getenv`. -/
def Env : Type := String → Option String

/-- `os.environ.setdefault key value`: stores `value` at `key` only when
the key is absent; returns the resulting environment. -/
def setdefault (env : Env) (k v : String) : Env :=
  fun x => if x = k then some ((env k).getD v) else env x

/-- Lines 23–29 of `main.py`: trim the raw line; skip blanks, comments and
lines without `=`; split on the first `=`; trim the key; trim and unquote
the value (`.strip()`, then strip double quotes, then single quotes). -/
def parseLine (raw : String) : Option (String × String) :=
  let line := pyStrip raw
  if line = "" then none
  else if startsWithHash line then none
  else
    match splitFirst '=' line with
    | none => none
    | some (k, v) =>
      some (pyStrip k, stripChar '\'' (stripChar '"' (pyStrip v)))

/-- One iteration of the `for raw_line in ...` loop of `load_env_file`. -/
def envStep (env : Env) (raw : String) : Env :=
  match parseLine raw with
  | none => env
  | some (k, v) => setdefault env k v

/-- `load_env_file` (main.py lines 17–31): load `key=value` pairs from a
local env file without overriding existing variables; a missing file is a
no-op. -/
def load_env_file (file : Option String) (env : Env) : Env :=
  match file with
  | none => env
  | some content => (splitLines content).foldl envStep env

/-- The key/value pairs the env-file loop extracts, in file order. -/
def envPairs (content : String) : List (String × String) :=
  (splitLines content).filterMap parseLine

/-- Errors of `load_rss_feeds`; the spec's `ConfigError` taxonomy names
both the `FileNotFoundError` (missing file) and the `ValueError`
(no feeds defined) raised by the code. -/
inductive FeedsLoadError
  | fileNotFound
  | noFeeds
deriving DecidableEq, Repr

/-- The accumulation loop of `load_rss_feeds` (main.py lines 43–47):
keep each trimmed line that is non-blank and not a comment. -/
def collectFeeds : List String → List String
  | [] => []
  | raw :: rest =>
    let line := pyStrip raw
    if line = "" then collectFeeds rest
    else if startsWithHash line then collectFeeds rest
    else line :: collectFeeds rest

/-- `load_rss_feeds` (main.py lines 37–52). -/
def load_rss_feeds (file : Option String) : Except FeedsLoadError (List String) :=
  match file with
  | none => .error .fileNotFound
  | some content =>
    let feeds := collectFeeds (splitLines content)
    if feeds.isEmpty then .error .noFeeds else .ok feeds

/-- Declarative reading of the spec sentence "the loader returns exactly
those N URLs, preserving order": the trimmed lines of the file that are
non-blank and not comments, in file order. -/
def spec_usableLines (content : String) : List String :=
  ((splitLines content).map pyStrip).filter
    (fun l => !(l == "" || startsWithHash l))

/-- A normalized article record (main.py lines 89–97). -/
structure Article where
  title : String
  link : String
  summary : String
  published : String
  source : String
deriving DecidableEq, Repr

/-- A raw feed entry as seen by `feedparser`: each `getattr(entry, f, "")`
field, with `""` standing for a missing attribute (Python treats the empty
string and a missing attribute identically in this code, via `or` and
truthiness tests). -/
structure RawEntry where
  title : String
  link : String
  summary : String
  description : String
  published : String
  updated : String
deriving DecidableEq, Repr

/-- The result of `feedparser.parse(feed_url)`: the feed's optional title
(`parsed.feed.get` with the URL as default) and its entry list. A feed
that fails to parse is a `ParsedFeed` with no entries. -/
structure ParsedFeed where
  title : Option String
  entries : List RawEntry
deriving DecidableEq, Repr

/-- `parsed.feed.get("title", feed_url)`. -/
def feedSource (url : String) (pf : ParsedFeed) : String := pf.title.getD url

/-- Per-entry extraction (main.py lines 81–97): trim title and link, drop
the entry if either is empty, apply the summary/description and
published/updated fallbacks. -/
def extractEntry (src : String) (e : RawEntry) : Option Article :=
  let title := pyStrip e.title
  let link := pyStrip e.link
  if title = "" || link = "" then none
  else
    some
      { title := title
        link := link
        summary := if e.summary ≠ "" then e.summary else e.description
        published := if e.published ≠ "" then e.published else e.updated
        source := src }

/-- The article list accumulated by the nested loops of `fetch_articles`
(main.py lines 77–97), in fetch order. Feed retrieval itself is network
I/O, so the function is parametrised by the parse result of each feed
URL. -/
def extractArticles (feeds : List (String × ParsedFeed)) : List Article :=
  feeds.foldr
    (fun fp acc => fp.2.entries.filterMap (extractEntry (feedSource fp.1 fp.2)) ++ acc)
    []

/-- One Python dict insertion `unique[k] = v`: an existing key keeps its
position and gets the new value; a new key is appended. -/
def insertDict : List (String × Article) → String → Article → List (String × Article)
  | [], k, v => [(k, v)]
  | (k', v') :: d, k, v =>
    if k' = k then (k', v) :: d else (k', v') :: insertDict d k v

/-- The dict built by the deduplication loop (main.py lines 100–102). -/
def buildDict (as : List Article) : List (String × Article) :=
  as.foldl (fun d a => insertDict d a.link a) []

/-- `list(unique.values())` (main.py line 103). -/
def dedupByLink (as : List Article) : List Article :=
  (buildDict as).map Prod.snd

/-- `MAX_ARTICLES` (main.py line 67). -/
def MAX_ARTICLES : Nat := 15

/-- The comparison realised by `articles.sort(key=..., reverse=True)`:
descending plain string comparison on the raw `published` field. -/
def publishedDesc (a b : Article) : Bool := decide (b.published ≤ a.published)

/-- `fetch_articles` (main.py lines 76–111): extract, deduplicate by link,
sort descending by the raw published string (Python's stable sort is
modelled by the stable `List.mergeSort`), and truncate to `MAX_ARTICLES`. -/
def fetch_articles (feeds : List (String × ParsedFeed)) : List Article :=
  ((dedupByLink (extractArticles feeds)).mergeSort publishedDesc).take MAX_ARTICLES

/-- Start character of a Python `string.Template` identifier
(`(?a:[_a-z])` with `IGNORECASE`). -/
def isIdentStart (c : Char) : Bool := c.isAlpha || c == '_'

/-- Continuation character of a Python `string.Template` identifier
(`(?a:[_a-z0-9])` with `IGNORECASE`). -/
def isIdentChar (c : Char) : Bool := c.isAlphanum || c == '_'

/-- The two ways `Template.substitute` can raise: a `ValueError` for an
invalid `$` occurrence and a `KeyError` for an unknown placeholder name;
the spec's `TemplateError` covers both. -/
inductive SubstError
  | invalidPlaceholder
  | missingKey (name : String)
deriving DecidableEq, Repr

/-- The length of `dropWhile` never exceeds the input's length. -/
theorem dropWhile_length_le (p : α → Bool) (l : List α) :
    (l.dropWhile p).length ≤ l.length := by
  induction l with
  | nil => simp
  | cons a l ih =>
    rw [List.dropWhile_cons]
    split
    · exact Nat.le_trans ih (Nat.le_succ _)
    · exact Nat.le_refl _

def consOk (c : Char) : Except SubstError (List Char) → Except SubstError (List Char)
  | .ok t => .ok (c :: t)
  | .error e => .error e

def prependOk (v : List Char) : Except SubstError (List Char) → Except SubstError (List Char)
  | .ok t => .ok (v ++ t)
  | .error e => .error e

/-- Python `string.Template.substitute` on the character list of the
template: `$$` escapes a dollar, `$name` and `${name}` are replaced via
the mapping (`KeyError` = `missingKey` when absent), and any other `$`
occurrence is a `ValueError` (`invalidPlaceholder`). Identifiers are
maximal runs of identifier characters starting with a letter or
underscore, as in the `Template` regex. -/
def substChars (m : String → Option String) : List Char → Except SubstError (List Char)
  | [] => .ok []
  | '$' :: '$' :: rest => consOk '$' (substChars m rest)
  | '$' :: '{' :: rest =>
    (match hs : rest.dropWhile isIdentChar with
     | '}' :: rest2 =>
       (match rest.takeWhile isIdentChar with
        | [] => .error .invalidPlaceholder
        | c :: cs =>
          if isIdentStart c then
            match m ⟨c :: cs⟩ with
            | some v => prependOk v.data (substChars m rest2)
            | none => .error (.missingKey ⟨c :: cs⟩)
          else .error .invalidPlaceholder)
     | _ => .error .invalidPlaceholder)
  | '$' :: c :: rest =>
    if isIdentStart c then
      match m ⟨c :: rest.takeWhile isIdentChar⟩ with
      | some v => prependOk v.data (substChars m (rest.dropWhile isIdentChar))
      | none => .error (.missingKey ⟨c :: rest.takeWhile isIdentChar⟩)
    else .error .invalidPlaceholder
  | ['$'] => .error .invalidPlaceholder
  | c :: rest => consOk c (substChars m rest)
termination_by l => l.length
decreasing_by
  all_goals simp
  · omega
  · have h1 : ('}' :: rest2).length ≤ rest.length := by
      rw [← hs]; exact dropWhile_length_le _ _
    simp at h1; omega
  · have h1 := dropWhile_length_le isIdentChar rest
    omega

/-- `Template(template).substitute(mapping)`. -/
def substitute (m : String → Option String) (s : String) : Except SubstError String :=
  match substChars m s.data with
  | .ok l => .ok ⟨l⟩
  | .error e => .error e

/-- One numbered article block of `build_articles_block`
(main.py lines 118–124): the five-line f-string, with the summary cut
hard at 500 characters. -/
def articleBlockLine (idx : Nat) (a : Article) : String :=
  toString idx ++ ". Title: " ++ a.title ++
  "\n   Source: " ++ a.source ++
  "\n   Published: " ++ a.published ++
  "\n   URL: " ++ a.link ++
  "\n   Summary/Excerpt: " ++ pyTake 500 a.summary ++ "\n"

/-- `build_articles_block` (main.py lines 114–125): the blocks are
1-indexed and joined with a blank-line separator. -/
def build_articles_block (articles : List Article) : String :=
  String.intercalate "\n" (articles.mapIdx fun i a => articleBlockLine (i + 1) a)

/-- The keyword arguments of `PROMPT_TEMPLATE.substitute(...)`
(main.py lines 130–133): exactly the names `today` and `articles_block`. -/
def promptMapping (today block : String) : String → Option String :=
  fun n =>
    if n = "today" then some today
    else if n = "articles_block" then some block
    else none

/-- `build_llm_prompt` (main.py lines 128–133), parametrised by the
template text (the global `PROMPT_TEMPLATE` file content) and by `today`. -/
def build_llm_prompt (template today : String) (articles : List Article) :
    Except SubstError String :=
  substitute (promptMapping today (build_articles_block articles)) template

/-- `OPENAI_MODEL` (main.py line 11): the special-cased default model. -/
def OPENAI_MODEL : String := "gpt-5-nano"

structure ChatMessage where
  role : String
  content : String
deriving DecidableEq, Repr

/-- The `request_kwargs` dict sent to `client.chat.completions.create`:
a model name, a message list, and an optional sampling temperature
(absent key = `none`). -/
structure ChatRequest where
  model : String
  messages : List ChatMessage
  temperature : Option Float

/-- Ways `generate_report_md` can raise before reaching the network call:
the `RuntimeError` for a missing/empty credential (the spec's
`ConfigError`) and a propagated template-substitution error. -/
inductive GenError
  | missingApiKey
  | templateErr (e : SubstError)
deriving DecidableEq, Repr

/-- Observable outcome of `generate_report_md` up to the network
boundary: either the fallback text was returned (no request issued), or
the fully built chat request was handed to the API client. -/
inductive GenResult
  | fallback (text : String)
  | request (req : ChatRequest)

/-- The fallback Markdown returned for an empty article list
(main.py line 145). The three characters `â€“` reproduce
the source file's bytes between "Report" and the date. -/
def fallbackText (today : String) : String :=
  "# Daily Research & Idea Report â€“ " ++ today ++
  "\n\nNo articles found today."

/-- The fixed system instruction (main.py line 154). -/
def systemMessage : ChatMessage :=
  ⟨"system", "You write clear, concise Markdown reports."⟩

/-- `generate_report_md` (main.py lines 136–165): check the credential
first (`os.getenv` returning `None` or the empty string raises), return
the fallback for an empty article list, otherwise render the prompt and
build the two-message request, adding `temperature = 0.4` unless the
lowercased trimmed model name is the default. -/
def generate_report_md (env : Env) (today template model : String)
    (articles : List Article) : Except GenError GenResult :=
  match env "OPENAI_API_KEY" with
  | none => .error .missingApiKey
  | some key =>
    if key = "" then .error .missingApiKey
    else if articles.isEmpty then .ok (.fallback (fallbackText today))
    else
      match build_llm_prompt template today articles with
      | .error e => .error (.templateErr e)
      | .ok prompt =>
        let model_name := pyStrip model
        .ok (.request
          { model := model_name
            messages := [systemMessage, ⟨"user", prompt⟩]
            temperature :=
              if pyLower model_name ≠ "gpt-5-nano" then some 0.4 else none })

/-- File-system contents, path → file text. `reports_dir.mkdir` only
ensures the directory exists and never touches file contents, so it has
no effect on this map. -/
def FS : Type := String → Option String

/-- The report path `reports / f"report-{today}.md"` (main.py line 173). -/
def report_path (today : String) : String :=
  "reports/report-" ++ today ++ ".md"

/-- `save_report` (main.py lines 168–175): `path.write_text` creates or
overwrites the dated report file. -/
def save_report (fs : FS) (today text : String) : FS :=
  fun p => if p = report_path today then some text else fs p

/-- A prompt template as structured parts: literal text and `$name`
placeholders. `renderTParts` produces the concrete template text the
code receives. -/
inductive TPart
  | lit (s : String)
  | hole (n : String)
deriving DecidableEq, Repr

def renderTParts : List TPart → String
  | [] => ""
  | .lit s :: ps => s ++ renderTParts ps
  | .hole n :: ps => "$" ++ n ++ renderTParts ps

/-- The spec's expected substitution result ("the template text with
the placeholders replaced, preserving the surrounding layout"): each
literal kept verbatim, each hole replaced by the date or the rendered
article block. -/
def spec_substTParts (today block : String) : List TPart → String
  | [] => ""
  | .lit s :: ps => s ++ spec_substTParts today block ps
  | .hole n :: ps =>
    (if n = "today" then today else block) ++ spec_substTParts today block ps

/-- A literal part is unambiguous when it is nonempty, contains no `$`,
and (directly after a hole) does not begin with an identifier character
that would extend the placeholder name. -/
def litOk (afterHole : Bool) (s : String) : Bool :=
  match s.data with
  | [] => false
  | c :: cs => (c :: cs).all (fun x => !(x == '$')) && (!afterHole || !(isIdentChar c))

/-- A valid `Template` identifier. -/
def identOk (n : String) : Bool :=
  match n.data with
  | [] => false
  | c :: cs => isIdentStart c && cs.all isIdentChar

/-- Well-formed structured templates; the flag records whether the
previous part was a hole. -/
def okParts : Bool → List TPart → Bool
  | _, [] => true
  | afterHole, .lit s :: ps => litOk afterHole s && okParts false ps
  | _, .hole n :: ps => identOk n && okParts true ps

/-- Substitution of a structured template under an arbitrary mapping
(each hole replaced by its mapped value). -/
def substTPartsM (m : String → Option String) : List TPart → String
  | [] => ""
  | .lit s :: ps => s ++ substTPartsM m ps
  | .hole n :: ps => ((m n).getD "") ++ substTPartsM m ps

/-- Decidable statement that a template references only the two supplied
placeholder names. -/
def holesAllowed (parts : List TPart) : Bool :=
  parts.all fun p =>
    match p with
    | .hole n => n == "today" || n == "articles_block"
    | .lit _ => true

/-- Concrete environment with one preexisting variable (test fixture). -/
def egEnv : Env := fun k => if k = "HOME" then some "/root" else none

/-- Concrete environment carrying the API credential (test fixture). -/
def egEnvKey : Env :=
  fun k => if k = "OPENAI_API_KEY" then some "sk-test" else none

/-- Two raw entries sharing one link but with different titles
(test fixture for the last-write-wins scenario). -/
def egEntry1 : RawEntry :=
  { title := "A", link := "https://x/1", summary := "s1",
    description := "", published := "2024-01-02", updated := "" }

def egEntry2 : RawEntry :=
  { title := "B", link := "https://x/1", summary := "",
    description := "d", published := "2024-01-03", updated := "" }

/-- One feed returning the two entries above (test fixture). -/
def egFeeds : List (String × ParsedFeed) :=
  [("https://feed", { title := none, entries := [egEntry1, egEntry2] })]

/-- The article extracted from `egEntry2` (the later entry). -/
def egArticle2 : Article :=
  { title := "B", link := "https://x/1", summary := "d",
    published := "2024-01-03", source := "https://feed" }

/-- A well-formed template using exactly the two placeholders. -/
def egParts : List TPart :=
  [.lit "Date: ", .hole "today", .lit "\n", .hole "articles_block", .lit "\n"]

/-- A well-formed template referencing an unknown placeholder. -/
def egBadParts : List TPart := [.lit "X: ", .hole "foo"]

theorem substChars_nil (m : String → Option String) : substChars m [] = .ok [] := by
  simp [substChars]

theorem substChars_cons (m : String → Option String) (c : Char) (l : List Char)
    (h : c ≠ '$') : substChars m (c :: l) = consOk c (substChars m l) := by
  rw [substChars.eq_def]
  split <;> simp_all

theorem consOk_ok (c : Char) (t : List Char) : consOk c (.ok t) = .ok (c :: t) := rfl

theorem consOk_error (c : Char) (e : SubstError) :
    consOk c (.error e) = .error e := rfl

theorem prependOk_ok (v t : List Char) : prependOk v (.ok t) = .ok (v ++ t) := rfl

theorem prependOk_error (v : List Char) (e : SubstError) :
    prependOk v (.error e) = .error e := rfl

theorem consOk_eq_prependOk (c : Char) (x : Except SubstError (List Char)) :
    consOk c x = prependOk [c] x := by
  cases x <;> rfl

theorem prependOk_prependOk (a b : List Char) (x : Except SubstError (List Char)) :
    prependOk a (prependOk b x) = prependOk (a ++ b) x := by
  cases x <;> simp [prependOk]

/-- A run of non-dollar characters passes through substitution verbatim. -/
theorem substChars_lit (m : String → Option String) (s l : List Char)
    (hs : ∀ c ∈ s, c ≠ '$') :
    substChars m (s ++ l) = prependOk s (substChars m l) := by
  induction s with
  | nil => cases h : substChars m l <;> simp [prependOk, h]
  | cons c cs ih =>
    rw [List.cons_append, substChars_cons m c (cs ++ l) (hs c (by simp)),
      ih (fun x hx => hs x (by simp [hx])), consOk_eq_prependOk, prependOk_prependOk]
    rfl

theorem isIdentStart_ne_dollar {c : Char} (h : isIdentStart c = true) : c ≠ '$' := by
  intro hc; rw [hc] at h; exact absurd h (by decide)

theorem isIdentStart_ne_brace {c : Char} (h : isIdentStart c = true) : c ≠ '{' := by
  intro hc; rw [hc] at h; exact absurd h (by decide)

/-- One unbraced placeholder at the head of the input: `$` followed by a
maximal identifier `c :: cs`, the rest not extending the identifier. -/
theorem substChars_hole (m : String → Option String) (c : Char) (cs rest : List Char)
    (hstart : isIdentStart c = true)
    (htake : (cs ++ rest).takeWhile isIdentChar = cs)
    (hdrop : (cs ++ rest).dropWhile isIdentChar = rest) :
    substChars m ('$' :: c :: (cs ++ rest)) =
      match m ⟨c :: cs⟩ with
      | some v => prependOk v.data (substChars m rest)
      | none => .error (.missingKey ⟨c :: cs⟩) := by
  have hc1 := isIdentStart_ne_dollar hstart
  have hc2 := isIdentStart_ne_brace hstart
  rw [substChars.eq_def]
  split <;> try simp_all
  rename_i u1 cc rr hno hsingle heq
  exact absurd heq.2.symm (hno c (cs ++ rest) heq.1.symm)

/-- Splitting an identifier run followed by a non-identifier remainder. -/
theorem span_ident (cs rest : List Char)
    (hcs : ∀ x ∈ cs, isIdentChar x = true)
    (hrest : ∀ x ∈ rest.head?, isIdentChar x = false) :
    (cs ++ rest).takeWhile isIdentChar = cs ∧
      (cs ++ rest).dropWhile isIdentChar = rest := by
  constructor
  · rw [List.takeWhile_append_of_pos hcs]
    cases rest with
    | nil => simp
    | cons x xs =>
      have hx : isIdentChar x = false := hrest x (by simp)
      simp [List.takeWhile_cons, hx]
  · rw [List.dropWhile_append_of_pos hcs]
    cases rest with
    | nil => simp
    | cons x xs =>
      have hx : isIdentChar x = false := hrest x (by simp)
      simp [List.dropWhile_cons, hx]

theorem litOk_no_dollar {afterHole : Bool} {s : String} (h : litOk afterHole s = true) :
    ∀ c ∈ s.data, c ≠ '$' := by
  unfold litOk at h
  intro c hc
  match hd : s.data with
  | [] => rw [hd] at hc; cases hc
  | x :: xs =>
    rw [hd] at h hc
    simp only [Bool.and_eq_true, List.all_eq_true] at h
    have := h.1 c hc
    simpa using this

theorem litOk_head {s : String} (h : litOk true s = true) :
    ∀ x ∈ s.data.head?, isIdentChar x = false := by
  unfold litOk at h
  intro x hx
  match hd : s.data with
  | [] => rw [hd] at hx; cases hx
  | c :: cs =>
    rw [hd] at h hx
    simp only [List.head?_cons, Option.mem_some_iff] at hx
    subst hx
    simp only [Bool.and_eq_true] at h
    have := h.2
    simpa using this

theorem identOk_data {n : String} (h : identOk n = true) :
    ∃ c cs, n.data = c :: cs ∧ isIdentStart c = true ∧ ∀ x ∈ cs, isIdentChar x = true := by
  unfold identOk at h
  match hd : n.data with
  | [] => rw [hd] at h; cases h
  | c :: cs =>
    rw [hd] at h
    simp only [Bool.and_eq_true, List.all_eq_true] at h
    exact ⟨c, cs, rfl, h.1, h.2⟩

theorem renderTParts_head_not_ident (ps : List TPart) (h : okParts true ps = true) :
    ∀ x ∈ (renderTParts ps).data.head?, isIdentChar x = false := by
  match ps with
  | [] => intro x hx; cases hx
  | .lit s :: ps2 =>
    simp only [okParts, Bool.and_eq_true] at h
    intro x hx
    rw [renderTParts, String.data_append] at hx
    cases hd : s.data with
    | nil =>
      have h1 := h.1
      unfold litOk at h1
      rw [hd] at h1
      simp at h1
    | cons c cs =>
      rw [hd, List.cons_append] at hx
      simp only [List.head?_cons, Option.mem_some_iff] at hx
      subst hx
      exact litOk_head h.1 c (by rw [hd]; simp)
  | .hole n :: ps2 =>
    intro x hx
    rw [renderTParts] at hx
    simp only [String.data_append] at hx
    simp only [List.singleton_append, List.cons_append, List.head?_cons,
      Option.mem_some_iff] at hx
    subst hx
    decide

/-- Substituting a rendered well-formed template whose hole names are all
defined in the mapping succeeds and yields the part-wise substitution. -/
theorem substChars_renderTParts (m : String → Option String) :
    ∀ (parts : List TPart) (ah : Bool), okParts ah parts = true →
    (∀ n, TPart.hole n ∈ parts → (m n).isSome) →
    substChars m (renderTParts parts).data = .ok (substTPartsM m parts).data := by
  intro parts
  induction parts with
  | nil => intro ah hok hm; simp [renderTParts, substTPartsM, substChars_nil]
  | cons p ps ih =>
    intro ah hok hm
    match p with
    | .lit s =>
      simp only [okParts, Bool.and_eq_true] at hok
      rw [renderTParts, substTPartsM, String.data_append,
        substChars_lit m s.data _ (litOk_no_dollar hok.1),
        ih false hok.2 (fun n hn => hm n (by simp [hn])),
        prependOk_ok, String.data_append]
    | .hole n =>
      simp only [okParts, Bool.and_eq_true] at hok
      obtain ⟨c, cs, hdata, hstart, hcs⟩ := identOk_data hok.1
      have hrest := renderTParts_head_not_ident ps hok.2
      obtain ⟨htake, hdrop⟩ :=
        span_ident cs (renderTParts ps).data hcs hrest
      have hlist : (renderTParts (TPart.hole n :: ps)).data
          = '$' :: c :: (cs ++ (renderTParts ps).data) := by
        rw [renderTParts]
        simp [String.data_append, hdata]
      rw [hlist, substChars_hole m c cs _ hstart htake hdrop]
      have hname : (⟨c :: cs⟩ : String) = n := by rw [← hdata]
      obtain ⟨v, hv⟩ := Option.isSome_iff_exists.mp (hm n (by simp))
      rw [hname, hv, ih true hok.2 (fun n2 hn2 => hm n2 (by simp [hn2]))]
      simp [prependOk, substTPartsM, hv, String.data_append]

/-- Substituting a rendered well-formed template with an undefined hole
name fails with a `missingKey` error. -/
theorem substChars_renderTParts_err (m : String → Option String) :
    ∀ (parts : List TPart) (ah : Bool), okParts ah parts = true →
    (∃ n, TPart.hole n ∈ parts ∧ m n = none) →
    ∃ n, m n = none ∧
      substChars m (renderTParts parts).data = .error (.missingKey n) := by
  intro parts
  induction parts with
  | nil => intro ah hok hbad; obtain ⟨n, hn, _⟩ := hbad; cases hn
  | cons p ps ih =>
    intro ah hok hbad
    match p with
    | .lit s =>
      simp only [okParts, Bool.and_eq_true] at hok
      obtain ⟨n, hn, hmn⟩ := hbad
      have hn2 : TPart.hole n ∈ ps := by
        rcases List.mem_cons.mp hn with hq | hq
        · cases hq
        · exact hq
      obtain ⟨n3, hmn3, herr⟩ := ih false hok.2 ⟨n, hn2, hmn⟩
      refine ⟨n3, hmn3, ?_⟩
      rw [renderTParts, String.data_append,
        substChars_lit m s.data _ (litOk_no_dollar hok.1), herr, prependOk_error]
    | .hole n =>
      simp only [okParts, Bool.and_eq_true] at hok
      obtain ⟨c, cs, hdata, hstart, hcs⟩ := identOk_data hok.1
      have hrest := renderTParts_head_not_ident ps hok.2
      obtain ⟨htake, hdrop⟩ :=
        span_ident cs (renderTParts ps).data hcs hrest
      have hlist : (renderTParts (TPart.hole n :: ps)).data
          = '$' :: c :: (cs ++ (renderTParts ps).data) := by
        rw [renderTParts]
        simp [String.data_append, hdata]
      have hname : (⟨c :: cs⟩ : String) = n := by rw [← hdata]
      cases hv : m n with
      | none =>
        refine ⟨n, hv, ?_⟩
        rw [hlist, substChars_hole m c cs _ hstart htake hdrop, hname, hv]
      | some v =>
        obtain ⟨n2, hn2, hmn2⟩ := hbad
        have hne : n2 ≠ n := by
          intro hq; rw [hq, hv] at hmn2; cases hmn2
        have hn3 : TPart.hole n2 ∈ ps := by
          rcases List.mem_cons.mp hn2 with hq | hq
          · have : n2 = n := by injection hq
            exact absurd this hne
          · exact hq
        obtain ⟨n4, hmn4, herr⟩ := ih true hok.2 ⟨n2, hn3, hmn2⟩
        refine ⟨n4, hmn4, ?_⟩
        rw [hlist, substChars_hole m c cs _ hstart htake hdrop, hname, hv, herr]
        simp [prependOk]

/-- With hole names restricted to the two supplied placeholders, the
generic substitution agrees with the spec's expected result. -/
theorem substTPartsM_promptMapping (today block : String) :
    ∀ parts : List TPart,
    (∀ n, TPart.hole n ∈ parts → n = "today" ∨ n = "articles_block") →
    substTPartsM (promptMapping today block) parts = spec_substTParts today block parts := by
  intro parts
  induction parts with
  | nil => intro h; rfl
  | cons p ps ih =>
    intro h
    match p with
    | .lit s =>
      rw [substTPartsM, spec_substTParts, ih (fun n hn => h n (by simp [hn]))]
    | .hole n =>
      rw [substTPartsM, spec_substTParts, ih (fun n2 hn2 => h n2 (by simp [hn2]))]
      rcases h n (by simp) with hn | hn
      · rw [hn]; rfl
      · rw [hn]; rfl

theorem insertDict_fst (d : List (String × Article)) (k : String) (v : Article) :
    (insertDict d k v).map Prod.fst =
      if k ∈ d.map Prod.fst then d.map Prod.fst else d.map Prod.fst ++ [k] := by
  induction d with
  | nil => simp [insertDict]
  | cons p d ih =>
    obtain ⟨k3, v3⟩ := p
    by_cases h : k3 = k
    · subst h
      simp [insertDict]
    · rw [insertDict]
      simp only [if_neg h, List.map_cons, ih]
      by_cases hm : k ∈ d.map Prod.fst
      · simp [hm, Ne.symm h]
      · simp [hm, Ne.symm h]

theorem insertDict_keys_nodup (d : List (String × Article)) (k : String) (v : Article)
    (h : (d.map Prod.fst).Nodup) : ((insertDict d k v).map Prod.fst).Nodup := by
  rw [insertDict_fst]
  by_cases hm : k ∈ d.map Prod.fst
  · simpa [hm] using h
  · rw [if_neg hm, List.nodup_append]
    refine ⟨h, List.nodup_singleton k, ?_⟩
    intro a ha hk
    rw [List.mem_singleton] at hk
    subst hk
    exact hm ha

theorem insertDict_link (d : List (String × Article)) (k : String) (v : Article)
    (hd : ∀ p ∈ d, p.2.link = p.1) (hv : v.link = k) :
    ∀ p ∈ insertDict d k v, p.2.link = p.1 := by
  induction d with
  | nil =>
    intro p hp
    rw [insertDict] at hp
    simp only [List.mem_singleton] at hp
    subst hp
    exact hv
  | cons q d ih =>
    obtain ⟨k3, v3⟩ := q
    intro p hp
    rw [insertDict] at hp
    by_cases h : k3 = k
    · rw [if_pos h] at hp
      rcases List.mem_cons.mp hp with hq | hq
      · subst hq; rw [h]; exact hv
      · exact hd p (List.mem_cons_of_mem _ hq)
    · rw [if_neg h] at hp
      rcases List.mem_cons.mp hp with hq | hq
      · subst hq; exact hd (k3, v3) (List.mem_cons_self _ _)
      · exact ih (fun q hq2 => hd q (List.mem_cons_of_mem _ hq2)) p hq

theorem insertDict_subset (d : List (String × Article)) (k : String) (v : Article) :
    ∀ p ∈ insertDict d k v, p ∈ d ∨ p = (k, v) := by
  induction d with
  | nil => intro p hp; rw [insertDict] at hp; simp only [List.mem_singleton] at hp; right; exact hp
  | cons q d ih =>
    obtain ⟨k3, v3⟩ := q
    intro p hp
    rw [insertDict] at hp
    by_cases h : k3 = k
    · rw [if_pos h] at hp
      rcases List.mem_cons.mp hp with hq | hq
      · subst hq; right; rw [h]
      · left; exact List.mem_cons_of_mem _ hq
    · rw [if_neg h] at hp
      rcases List.mem_cons.mp hp with hq | hq
      · subst hq; left; exact List.mem_cons_self _ _
      · rcases ih p hq with hq2 | hq2
        · left; exact List.mem_cons_of_mem _ hq2
        · right; exact hq2

/-- Membership in an updated dict with no duplicate keys: either the new
binding, or an old binding at a different key. -/
theorem insertDict_mem_cases (d : List (String × Article)) (k : String) (v : Article)
    (hnd : (d.map Prod.fst).Nodup) :
    ∀ p ∈ insertDict d k v, p = (k, v) ∨ (p ∈ d ∧ p.1 ≠ k) := by
  induction d with
  | nil => intro p hp; rw [insertDict] at hp; simp only [List.mem_singleton] at hp; left; exact hp
  | cons q d ih =>
    obtain ⟨k3, v3⟩ := q
    simp only [List.map_cons, List.nodup_cons] at hnd
    intro p hp
    rw [insertDict] at hp
    by_cases h : k3 = k
    · rw [if_pos h] at hp
      rcases List.mem_cons.mp hp with hq | hq
      · left; rw [hq, h]
      · right
        refine ⟨List.mem_cons_of_mem _ hq, ?_⟩
        intro hpk
        apply hnd.1
        rw [h, ← hpk]
        exact List.mem_map_of_mem Prod.fst hq
    · rw [if_neg h] at hp
      rcases List.mem_cons.mp hp with hq | hq
      · right; exact ⟨by rw [hq]; exact List.mem_cons_self _ _, by rw [hq]; exact h⟩
      · rcases ih hnd.2 p hq with hq2 | hq2
        · left; exact hq2
        · right; exact ⟨List.mem_cons_of_mem _ hq2.1, hq2.2⟩

theorem buildDict_keys_nodup (as : List Article) :
    ((buildDict as).map Prod.fst).Nodup := by
  have key : ∀ (xs : List Article) (d : List (String × Article)),
      (d.map Prod.fst).Nodup →
      ((xs.foldl (fun d a => insertDict d a.link a) d).map Prod.fst).Nodup := by
    intro xs
    induction xs with
    | nil => intro d hd; simpa using hd
    | cons a xs ih =>
      intro d hd
      exact ih _ (insertDict_keys_nodup d a.link a hd)
  exact key as [] (by simp)

theorem buildDict_link (as : List Article) :
    ∀ p ∈ buildDict as, p.2.link = p.1 := by
  have key : ∀ (xs : List Article) (d : List (String × Article)),
      (∀ p ∈ d, p.2.link = p.1) →
      ∀ p ∈ xs.foldl (fun d a => insertDict d a.link a) d, p.2.link = p.1 := by
    intro xs
    induction xs with
    | nil => intro d hd; simpa using hd
    | cons a xs ih =>
      intro d hd
      exact ih _ (insertDict_link d a.link a hd rfl)
  exact key as [] (by simp)

theorem mem_of_mem_dedup (as : List Article) :
    ∀ b ∈ dedupByLink as, b ∈ as := by
  have key : ∀ (xs : List Article) (d : List (String × Article)) (p : String × Article),
      p ∈ xs.foldl (fun d a => insertDict d a.link a) d → p ∈ d ∨ p.2 ∈ xs := by
    intro xs
    induction xs with
    | nil => intro d p hp; left; simpa using hp
    | cons a xs ih =>
      intro d p hp
      rcases ih _ p hp with hq | hq
      · rcases insertDict_subset d a.link a p hq with hq2 | hq2
        · left; exact hq2
        · right; rw [hq2]; exact List.mem_cons_self _ _
      · right; exact List.mem_cons_of_mem _ hq
  intro b hb
  rw [dedupByLink] at hb
  obtain ⟨p, hp, hpb⟩ := List.mem_map.mp hb
  rcases key as [] p hp with hq | hq
  · cases hq
  · rw [← hpb]; exact hq

theorem dedup_links_nodup (as : List Article) :
    ((dedupByLink as).map Article.link).Nodup := by
  rw [dedupByLink, List.map_map]
  have : (buildDict as).map (Article.link ∘ Prod.snd) = (buildDict as).map Prod.fst :=
    List.map_congr_left (fun p hp => buildDict_link as p hp)
  rw [this]
  exact buildDict_keys_nodup as

theorem buildDict_append_one (as : List Article) (a : Article) :
    buildDict (as ++ [a]) = insertDict (buildDict as) a.link a := by
  rw [buildDict, buildDict, List.foldl_append]
  rfl

/-- Last-write-wins: every binding of the deduplication dict is the last
article in input order carrying its link. -/
theorem buildDict_last (as : List Article) :
    ∀ p ∈ buildDict as,
      (as.filter (fun b => b.link == p.1)).getLast? = some p.2 := by
  induction as using List.reverseRecOn with
  | nil => intro p hp; simp [buildDict] at hp
  | append_singleton as a ih =>
    intro p hp
    rw [buildDict_append_one] at hp
    rcases insertDict_mem_cases (buildDict as) a.link a (buildDict_keys_nodup as) p hp
      with hq | hq
    · subst hq
      show ((as ++ [a]).filter (fun b => b.link == a.link)).getLast? = some a
      have hfa : List.filter (fun b => b.link == a.link) [a] = [a] := by simp
      rw [List.filter_append, hfa, List.getLast?_concat]
    · have hlast := ih p hq.1
      have hne : (a.link == p.1) = false :=
        beq_eq_false_iff_ne.mpr (fun h => hq.2 h.symm)
      have hfa : List.filter (fun b => b.link == p.1) [a] = [] := by
        simp [List.filter_cons, hne]
      rw [List.filter_append, hfa, List.append_nil]
      exact hlast

theorem publishedDesc_trans (a b c : Article) :
    publishedDesc a b → publishedDesc b c → publishedDesc a c := by
  simp only [publishedDesc, decide_eq_true_eq]
  exact fun hab hbc => le_trans hbc hab

theorem publishedDesc_total (a b : Article) :
    publishedDesc a b || publishedDesc b a := by
  simp only [publishedDesc, Bool.or_eq_true, decide_eq_true_eq]
  exact le_total b.published a.published

theorem extract_fields (feeds : List (String × ParsedFeed)) :
    ∀ a ∈ extractArticles feeds, a.title ≠ "" ∧ a.link ≠ "" := by
  induction feeds with
  | nil => intro a ha; cases ha
  | cons fp feeds ih =>
    intro a ha
    rw [extractArticles, List.foldr_cons] at ha
    rcases List.mem_append.mp ha with hq | hq
    · obtain ⟨e, _, he⟩ := List.mem_filterMap.mp hq
      rw [extractEntry] at he
      by_cases hc : pyStrip e.title = "" || pyStrip e.link = ""
      · rw [if_pos hc] at he; cases he
      · rw [if_neg hc] at he
        simp only [Bool.or_eq_true, decide_eq_true_eq, not_or] at hc
        cases he
        exact ⟨hc.1, hc.2⟩
    · exact ih a hq

theorem mem_fetch_mem_dedup (feeds : List (String × ParsedFeed)) :
    ∀ a ∈ fetch_articles feeds, a ∈ dedupByLink (extractArticles feeds) := by
  intro a ha
  rw [fetch_articles] at ha
  exact List.mem_mergeSort.mp (List.mem_of_mem_take ha)

/-- C2 invariant, part 1: pairwise-distinct links. -/
theorem fetch_links_nodup (feeds : List (String × ParsedFeed)) :
    ((fetch_articles feeds).map Article.link).Nodup := by
  rw [fetch_articles, List.map_take]
  apply List.Nodup.sublist (List.take_sublist _ _)
  have hperm :=
    (List.mergeSort_perm (dedupByLink (extractArticles feeds)) publishedDesc).map Article.link
  exact hperm.nodup_iff.mpr (dedup_links_nodup _)

/-- C2 invariant, part 2: at most `MAX_ARTICLES` articles. -/
theorem fetch_length_le (feeds : List (String × ParsedFeed)) :
    (fetch_articles feeds).length ≤ MAX_ARTICLES := by
  rw [fetch_articles]
  exact List.length_take_le _ _

/-- C2 invariant, part 3: descending by plain string comparison on the
raw published field. -/
theorem fetch_sorted (feeds : List (String × ParsedFeed)) :
    (fetch_articles feeds).Pairwise (fun a b => b.published ≤ a.published) := by
  rw [fetch_articles]
  apply List.Pairwise.sublist (List.take_sublist _ _)
  have hsorted :=
    List.sorted_mergeSort publishedDesc_trans publishedDesc_total
      (dedupByLink (extractArticles feeds))
  exact hsorted.imp (fun h => by simpa [publishedDesc] using h)

/-- C2 invariant, part 4: no article with empty trimmed title or link. -/
theorem fetch_fields (feeds : List (String × ParsedFeed)) :
    ∀ a ∈ fetch_articles feeds, a.title ≠ "" ∧ a.link ≠ "" := by
  intro a ha
  exact extract_fields feeds a
    (mem_of_mem_dedup _ a (mem_fetch_mem_dedup feeds a ha))

theorem setdefault_preserve (env : Env) (k2 v k : String) (h : (env k).isSome) :
    setdefault env k2 v k = env k := by
  rw [setdefault]
  by_cases hk : k = k2
  · subst hk
    obtain ⟨u, hu⟩ := Option.isSome_iff_exists.mp h
    rw [if_pos rfl, hu]
    rfl
  · rw [if_neg hk]

theorem envStep_preserve (env : Env) (raw k : String) (h : (env k).isSome) :
    envStep env raw k = env k := by
  rw [envStep]
  cases parseLine raw with
  | none => rfl
  | some kv => exact setdefault_preserve env kv.1 kv.2 k h

theorem foldl_envStep_preserve (lines : List String) :
    ∀ env : Env, ∀ k, (env k).isSome → (lines.foldl envStep env) k = env k := by
  induction lines with
  | nil => intro env k h; rfl
  | cons raw lines ih =>
    intro env k h
    rw [List.foldl_cons]
    have h1 : envStep env raw k = env k := envStep_preserve env raw k h
    have h2 : ((envStep env raw) k).isSome := by rw [h1]; exact h
    rw [ih (envStep env raw) k h2, h1]

theorem envStep_other (env : Env) (raw k : String)
    (h : ∀ kv, parseLine raw = some kv → kv.1 ≠ k) :
    envStep env raw k = env k := by
  rw [envStep]
  cases hp : parseLine raw with
  | none => rfl
  | some kv =>
    simp only [setdefault]
    have := h kv hp
    rw [if_neg (fun hq => this hq.symm)]

theorem foldl_envStep_other (lines : List String) :
    ∀ env : Env, ∀ k,
    (∀ raw ∈ lines, ∀ kv, parseLine raw = some kv → kv.1 ≠ k) →
    (lines.foldl envStep env) k = env k := by
  induction lines with
  | nil => intro env k _; rfl
  | cons raw lines ih =>
    intro env k h
    rw [List.foldl_cons,
      ih (envStep env raw) k (fun r hr kv hkv => h r (List.mem_cons_of_mem _ hr) kv hkv),
      envStep_other env raw k (fun kv hkv => h raw (List.mem_cons_self _ _) kv hkv)]

theorem collectFeeds_eq_filter (lines : List String) :
    collectFeeds lines =
      (lines.map pyStrip).filter (fun l => !(l == "" || startsWithHash l)) := by
  induction lines with
  | nil => rfl
  | cons raw lines ih =>
    rw [collectFeeds, List.map_cons, List.filter_cons]
    by_cases h1 : pyStrip raw = ""
    · simp only [h1, if_pos rfl]
      simpa [h1] using ih
    · by_cases h2 : startsWithHash (pyStrip raw) = true
      · rw [if_neg h1, if_pos h2]
        have : (!(pyStrip raw == "" || startsWithHash (pyStrip raw))) = false := by
          simp [h2]
        rw [this]
        simpa using ih
      · rw [if_neg h1, if_neg h2]
        have : (!(pyStrip raw == "" || startsWithHash (pyStrip raw))) = true := by
          simp [h1, h2]
        rw [this, if_pos rfl, ih]

theorem str_append_assoc (a b c : String) : a ++ b ++ c = a ++ (b ++ c) := by
  apply String.ext
  simp [String.data_append]

/-- Evaluation of the pipeline on the two-entry fixture: the later entry's
article is the only survivor. -/
theorem fetch_articles_egFeeds : fetch_articles egFeeds = [egArticle2] := by
  have h1 : dedupByLink (extractArticles egFeeds) = [egArticle2] := by decide
  rw [fetch_articles, h1]
  have h2 : List.mergeSort [egArticle2] publishedDesc = [egArticle2] := by
    simp [List.mergeSort]
  rw [h2]
  rfl

/-- Evaluation of the prompt builder on a placeholder-free template. -/
theorem build_llm_prompt_T (articles : List Article) :
    build_llm_prompt "T" "2026-10-12" articles = .ok "T" := by
  rw [build_llm_prompt, substitute]
  have h1 : ("T" : String).data = ['T'] := rfl
  rw [h1, substChars_cons _ 'T' [] (by decide), substChars_nil]
  rfl

/-- The request-building path of `generate_report_md`: credential present,
articles nonempty, prompt rendered. -/
theorem generate_report_request (env : Env) (today template model : String)
    (articles : List Article) (k prompt : String)
    (hk : env "OPENAI_API_KEY" = some k) (hne : k ≠ "") (hart : articles ≠ [])
    (hprompt : build_llm_prompt template today articles = .ok prompt) :
    generate_report_md env today template model articles =
      .ok (.request
        { model := pyStrip model
          messages := [systemMessage, ⟨"user", prompt⟩]
          temperature :=
            if pyLower (pyStrip model) ≠ "gpt-5-nano" then some 0.4 else none }) := by
  have hart2 : articles.isEmpty = false := by
    cases articles with
    | nil => exact absurd rfl hart
    | cons a l => rfl
  simp [generate_report_md, hk, hne, hart2, hprompt]

/-- C2: for any multiset of entries produced by the configured feeds, the
list returned by `fetch_articles` has pairwise-distinct link fields,
length at most `MAX_ARTICLES` (15), is sorted descending by plain string
comparison on the raw `published` field, and contains no entry whose
title or link was empty after trimming. -/
theorem fetch_articles_invariants (feeds : List (String × ParsedFeed)) :
    ((fetch_articles feeds).map Article.link).Nodup ∧
    (fetch_articles feeds).length ≤ MAX_ARTICLES ∧
    (fetch_articles feeds).Pairwise (fun a b => b.published ≤ a.published) ∧
    ∀ a ∈ fetch_articles feeds, a.title ≠ "" ∧ a.link ≠ "" :=
  ⟨fetch_links_nodup feeds, fetch_length_le feeds, fetch_sorted feeds,
    fetch_fields feeds⟩

theorem fetch_articles_invariants_witness :
    ((fetch_articles egFeeds).map Article.link).Nodup ∧
    (fetch_articles egFeeds).length ≤ MAX_ARTICLES ∧
    (egArticle2.title ≠ "" ∧ egArticle2.link ≠ "") :=
  ⟨(fetch_articles_invariants egFeeds).1,
   (fetch_articles_invariants egFeeds).2.1,
   (fetch_articles_invariants egFeeds).2.2.2 egArticle2
     (by rw [fetch_articles_egFeeds]; exact List.mem_singleton.mpr rfl)⟩

/-- C3: the entry retained by the deduplication of `fetch_articles` is the
last one in fetch order with that link (last-write-wins); in particular a
feed with two same-link entries keeps only the later one (see the
witness, which runs the two-entry one-feed scenario). -/
theorem dedup_last_write_wins (feeds : List (String × ParsedFeed)) (a : Article)
    (h : a ∈ dedupByLink (extractArticles feeds)) :
    ((extractArticles feeds).filter (fun b => b.link == a.link)).getLast? = some a := by
  rw [dedupByLink] at h
  obtain ⟨p, hp, hpa⟩ := List.mem_map.mp h
  have hk := buildDict_link _ p hp
  have hlast := buildDict_last _ p hp
  subst hpa
  rw [hk]
  exact hlast

theorem dedup_last_write_wins_witness :
    fetch_articles egFeeds = [egArticle2] ∧
    ((extractArticles egFeeds).filter
      (fun b => b.link == egArticle2.link)).getLast? = some egArticle2 :=
  ⟨fetch_articles_egFeeds, dedup_last_write_wins egFeeds egArticle2 (by decide)⟩

/-- C4: the loader returns exactly the trimmed non-blank non-comment lines
in file order when at least one exists, errors with the missing-file
`ConfigError` when the file is absent, and with the empty `ConfigError`
when no usable line exists. -/
theorem load_rss_feeds_spec :
    load_rss_feeds none = .error .fileNotFound ∧
    ∀ content : String,
      (spec_usableLines content ≠ [] →
        load_rss_feeds (some content) = .ok (spec_usableLines content)) ∧
      (spec_usableLines content = [] →
        load_rss_feeds (some content) = .error .noFeeds) := by
  refine ⟨rfl, fun content => ⟨?_, ?_⟩⟩
  · intro h
    have he : collectFeeds (splitLines content) = spec_usableLines content :=
      collectFeeds_eq_filter _
    have hne : (spec_usableLines content).isEmpty = false := by
      cases hq : spec_usableLines content with
      | nil => exact absurd hq h
      | cons x xs => rfl
    simp [load_rss_feeds, he, hne]
  · intro h
    have he : collectFeeds (splitLines content) = [] := by
      rw [collectFeeds_eq_filter]
      exact h
    simp [load_rss_feeds, he]

theorem load_rss_feeds_spec_witness :
    load_rss_feeds (some "https://a\n# c\n\nhttps://b") =
      .ok ["https://a", "https://b"] := by
  have h := (load_rss_feeds_spec.2 "https://a\n# c\n\nhttps://b").1 (by decide)
  have h2 : spec_usableLines "https://a\n# c\n\nhttps://b" = ["https://a", "https://b"] := by
    decide
  rw [h, h2]

/-- C5: `load_env_file` never changes an environment variable that is
already set, and leaves every key not mentioned in the file unchanged. -/
theorem load_env_file_no_override (file : Option String) (env : Env) (k : String) :
    ((env k).isSome → load_env_file file env k = env k) ∧
    (∀ content, (∀ p ∈ envPairs content, p.1 ≠ k) →
      load_env_file (some content) env k = env k) := by
  constructor
  · intro h
    cases file with
    | none => rfl
    | some content => exact foldl_envStep_preserve (splitLines content) env k h
  · intro content h
    apply foldl_envStep_other
    intro raw hraw kv hkv
    exact h kv (List.mem_filterMap.mpr ⟨raw, hraw, hkv⟩)

theorem load_env_file_no_override_witness :
    load_env_file (some "HOME=/tmp\nFOO=1") egEnv "HOME" = egEnv "HOME" ∧
    load_env_file (some "HOME=/tmp\nFOO=1") egEnv "BAR" = egEnv "BAR" :=
  ⟨(load_env_file_no_override (some "HOME=/tmp\nFOO=1") egEnv "HOME").1 (by decide),
   (load_env_file_no_override none egEnv "BAR").2 "HOME=/tmp\nFOO=1" (by decide)⟩

/-- C6: for a well-formed template whose placeholders are exactly
`$today` and `$articles_block`, `build_llm_prompt` returns the template
text with the two placeholders replaced by the date and the rendered
article block, preserving the surrounding layout; a template referencing
any other placeholder name fails with a `TemplateError` (`missingKey`).
The current date is modelled by the explicit `today` argument. -/
theorem build_llm_prompt_spec (parts : List TPart) (today : String)
    (articles : List Article) (hok : okParts false parts = true) :
    (holesAllowed parts = true →
      build_llm_prompt (renderTParts parts) today articles =
        .ok (spec_substTParts today (build_articles_block articles) parts)) ∧
    (∀ n, TPart.hole n ∈ parts → n ≠ "today" → n ≠ "articles_block" →
      ∃ e, build_llm_prompt (renderTParts parts) today articles =
          .error (.missingKey e) ∧ e ≠ "today" ∧ e ≠ "articles_block") := by
  constructor
  · intro hall
    have hnames : ∀ n, TPart.hole n ∈ parts → n = "today" ∨ n = "articles_block" := by
      intro n hn
      have := List.all_eq_true.mp hall _ hn
      simpa using this
    have hm : ∀ n, TPart.hole n ∈ parts →
        ((promptMapping today (build_articles_block articles)) n).isSome := by
      intro n hn
      rcases hnames n hn with h | h <;> simp [promptMapping, h]
    rw [build_llm_prompt, substitute,
      substChars_renderTParts _ parts false hok hm,
      substTPartsM_promptMapping today (build_articles_block articles) parts hnames]
  · intro n hn h1 h2
    have hbad : ∃ n2, TPart.hole n2 ∈ parts ∧
        (promptMapping today (build_articles_block articles)) n2 = none :=
      ⟨n, hn, by simp [promptMapping, h1, h2]⟩
    obtain ⟨e, he, herr⟩ :=
      substChars_renderTParts_err _ parts false hok hbad
    refine ⟨e, ?_, ?_, ?_⟩
    · rw [build_llm_prompt, substitute, herr]
    · intro hq; rw [hq] at he; simp [promptMapping] at he
    · intro hq; rw [hq] at he; simp [promptMapping] at he

theorem build_llm_prompt_spec_witness :
    build_llm_prompt (renderTParts egParts) "2026-10-12" [] =
      .ok (spec_substTParts "2026-10-12" (build_articles_block []) egParts) ∧
    (∃ e, build_llm_prompt (renderTParts egBadParts) "2026-10-12" [] =
        .error (.missingKey e) ∧ e ≠ "today" ∧ e ≠ "articles_block") :=
  ⟨(build_llm_prompt_spec egParts "2026-10-12" [] (by decide)).1 (by decide),
   (build_llm_prompt_spec egBadParts "2026-10-12" [] (by decide)).2 "foo"
     (by decide) (by decide) (by decide)⟩

/-- C1 counterexample: with an empty article list but no credential in
the environment, `generate_report_md` raises the missing-credential error
(main.py line 139 runs before the empty-list check at line 143) instead
of returning the fallback string, refuting "for every call ... with an
empty article list, it returns the fixed fallback". -/
theorem generate_report_md_empty_needs_key :
    generate_report_md (fun _ => none) "2026-10-12" "T" "gpt-5-nano" [] =
      .error .missingApiKey ∧
    generate_report_md (fun _ => none) "2026-10-12" "T" "gpt-5-nano" [] ≠
      .ok (.fallback (fallbackText "2026-10-12")) := by
  refine ⟨rfl, ?_⟩
  intro h
  have h2 : (Except.error GenError.missingApiKey : Except GenError GenResult) =
      .ok (.fallback (fallbackText "2026-10-12")) := h
  exact Except.noConfusion h2

/-- C1 amended: whenever the credential is set (and nonempty),
`generate_report_md` with an empty article list returns the fixed
fallback Markdown containing the (explicitly passed) date and the
"No articles found today." notice, and builds no API request (the result
is `GenResult.fallback`, never `GenResult.request`). -/
theorem generate_report_md_empty_fallback (env : Env)
    (today template model k : String)
    (hk : env "OPENAI_API_KEY" = some k) (hne : k ≠ "") :
    generate_report_md env today template model [] =
      .ok (.fallback (fallbackText today)) ∧
    (∃ pre post, fallbackText today = pre ++ today ++ post) ∧
    (∃ pre, fallbackText today = pre ++ "No articles found today.") := by
  refine ⟨?_, ⟨"# Daily Research & Idea Report â€“ ",
    "\n\nNo articles found today.", rfl⟩, ?_⟩
  · simp [generate_report_md, hk, hne]
  · refine ⟨"# Daily Research & Idea Report â€“ " ++ today ++ "\n\n", ?_⟩
    have hsplit : ("\n\nNo articles found today." : String) =
        "\n\n" ++ "No articles found today." := rfl
    rw [fallbackText, hsplit, ← str_append_assoc]

theorem generate_report_md_empty_fallback_witness :
    generate_report_md egEnvKey "2026-10-12" "T" "gpt-5-nano" [] =
      .ok (.fallback (fallbackText "2026-10-12")) :=
  (generate_report_md_empty_fallback egEnvKey "2026-10-12" "T" "gpt-5-nano"
    "sk-test" rfl (by decide)).1

/-- C7: with a non-empty article list and the credential variable unset,
`generate_report_md` raises the missing-credential `ConfigError` before
any network call (the error is produced with no `GenResult.request` ever
built). -/
theorem generate_report_md_missing_key (env : Env)
    (today template model : String) (articles : List Article)
    (hart : articles ≠ []) (hk : env "OPENAI_API_KEY" = none) :
    generate_report_md env today template model articles =
      .error .missingApiKey := by
  simp [generate_report_md, hk]

theorem generate_report_md_missing_key_witness :
    generate_report_md (fun _ => none) "2026-10-12" "T" "gpt-5-nano"
      [egArticle2] = .error .missingApiKey :=
  generate_report_md_missing_key (fun _ => none) "2026-10-12" "T"
    "gpt-5-nano" [egArticle2] (by decide) rfl

/-- C10: the credential is checked first, even for an empty article list:
with it unset the call raises the missing-credential error, and the
empty-list fallback is returned exactly when a (nonempty) credential is
present. -/
theorem generate_report_md_key_checked_first (env : Env)
    (today template model : String) :
    (env "OPENAI_API_KEY" = none →
      generate_report_md env today template model [] =
        .error .missingApiKey) ∧
    (∀ k, env "OPENAI_API_KEY" = some k → k ≠ "" →
      generate_report_md env today template model [] =
        .ok (.fallback (fallbackText today))) := by
  constructor
  · intro hk; simp [generate_report_md, hk]
  · intro k hk hne; simp [generate_report_md, hk, hne]

theorem generate_report_md_key_checked_first_witness :
    generate_report_md (fun _ => none) "2026-10-12" "T" "gpt-5-nano" [] =
      .error .missingApiKey ∧
    generate_report_md egEnvKey "2026-10-12" "T" "gpt-5-nano" [] =
      .ok (.fallback (fallbackText "2026-10-12")) :=
  ⟨(generate_report_md_key_checked_first (fun _ => none) "2026-10-12" "T"
      "gpt-5-nano").1 rfl,
   (generate_report_md_key_checked_first egEnvKey "2026-10-12" "T"
      "gpt-5-nano").2 "sk-test" rfl (by decide)⟩

/-- C8 counterexample: the model name "GPT-5-Nano" differs from the
special-cased default `OPENAI_MODEL` ("gpt-5-nano") as a string, yet the
built request omits the temperature parameter, because the code compares
`model_name.lower()` (main.py line 159), refuting "for any other model
name the request sets temperature to 0.4". -/
theorem chat_request_temperature_cex :
    ("GPT-5-Nano" ≠ OPENAI_MODEL) ∧
    generate_report_md egEnvKey "2026-10-12" "T" "GPT-5-Nano" [egArticle2] =
      .ok (.request
        { model := "GPT-5-Nano"
          messages := [systemMessage, ⟨"user", "T"⟩]
          temperature := none }) := by
  refine ⟨by decide, ?_⟩
  have h := generate_report_request egEnvKey "2026-10-12" "T" "GPT-5-Nano"
    [egArticle2] "sk-test" "T" rfl (by decide) (by decide)
    (build_llm_prompt_T [egArticle2])
  rw [h]
  rfl

/-- C8 amended: for every non-empty article list (credential present,
prompt rendered), the request has exactly the two messages (fixed system
instruction, rendered user prompt), and the sampling temperature is
omitted exactly when the trimmed, lowercased model name equals the
special-cased default `OPENAI_MODEL`, set to 0.4 for any other normalized
name — a single equality check on the normalized model name. -/
theorem chat_request_shape (env : Env) (today template model : String)
    (articles : List Article) (k prompt : String)
    (hk : env "OPENAI_API_KEY" = some k) (hne : k ≠ "")
    (hart : articles ≠ [])
    (hprompt : build_llm_prompt template today articles = .ok prompt) :
    ∃ req, generate_report_md env today template model articles =
        .ok (.request req) ∧
      req.messages = [systemMessage, ⟨"user", prompt⟩] ∧
      req.messages.length = 2 ∧
      (req.temperature = none ↔ pyLower (pyStrip model) = OPENAI_MODEL) ∧
      (pyLower (pyStrip model) ≠ OPENAI_MODEL →
        req.temperature = some 0.4) := by
  refine ⟨_, generate_report_request env today template model articles
    k prompt hk hne hart hprompt, rfl, rfl, ?_, ?_⟩
  · by_cases h : pyLower (pyStrip model) = "gpt-5-nano"
    · simp [OPENAI_MODEL, h]
    · simp [OPENAI_MODEL, h]
  · intro h
    have h2 : pyLower (pyStrip model) ≠ "gpt-5-nano" := h
    simp [h2]

theorem chat_request_shape_witness :
    ∃ req, generate_report_md egEnvKey "2026-10-12" "T" "gpt-5-nano"
        [egArticle2] = .ok (.request req) ∧
      req.messages = [systemMessage, ⟨"user", "T"⟩] ∧
      req.messages.length = 2 ∧
      req.temperature = none := by
  obtain ⟨req, h1, h2, h3, h4, h5⟩ := chat_request_shape egEnvKey
    "2026-10-12" "T" "gpt-5-nano" [egArticle2] "sk-test" "T" rfl
    (by decide) (by decide) (build_llm_prompt_T [egArticle2])
  exact ⟨req, h1, h2, h3, h4.mpr (by decide)⟩

/-- C9: both writes of a UTC day target the single dated path
`reports/report-<today>.md`; the second write overwrites the first, the
file afterwards holds exactly the second text, and every other path is
untouched. -/
theorem save_report_overwrite (fs : FS) (today t1 t2 p : String)
    (hp : p ≠ report_path today) :
    report_path today = "reports/report-" ++ today ++ ".md" ∧
    (save_report (save_report fs today t1) today t2) (report_path today) =
      some t2 ∧
    (save_report (save_report fs today t1) today t2) p = fs p := by
  refine ⟨rfl, ?_, ?_⟩
  · simp [save_report]
  · simp [save_report, hp]

theorem save_report_overwrite_witness :
    (save_report (save_report (fun _ => none) "2026-10-12" "r1")
      "2026-10-12" "r2") (report_path "2026-10-12") = some "r2" ∧
    (save_report (save_report (fun _ => none) "2026-10-12" "r1")
      "2026-10-12" "r2") "reports/report-2026-10-11.md" = none :=
  ⟨(save_report_overwrite (fun _ => none) "2026-10-12" "r1" "r2"
      "reports/report-2026-10-11.md" (by decide)).2.1,
   (save_report_overwrite (fun _ => none) "2026-10-12" "r1" "r2"
      "reports/report-2026-10-11.md" (by decide)).2.2⟩
